import Mathlib

/-!
Shallow embedding of `scripts/inspect_netflow_templates.py` (NetFlow Template
Inspector): a passive decoder and statistics aggregator for IPFIX/NetFlow
flow-export packets.

Modelling conventions:
- A byte buffer is `List Nat` (entries are byte values); `struct.unpack` reads
  are `Option`-valued: `none` models a raised `struct.error` (out-of-bounds
  read).  The Python code guards every read with an explicit length check, and
  the safety theorem shows the model never returns `none`.
- Python `dict`s (which preserve insertion order) are association lists with
  create-at-end semantics.
- The two `while` loops advance a cursor by at least 4 bytes per iteration;
  they are modelled with an explicit fuel parameter, instantiated with
  `data.length + 1` (fuel exhaustion yields `none`, and the safety lemmas show
  that this fuel always suffices).
- Console prints that reveal decoding decisions are modelled as a trace: the
  list of decoded template records and the list of suspicious-length flags.
-/

namespace NetflowInspect

/-- Byte buffers: `bytes` values received from the UDP socket. -/
abbrev Bytes := List Nat

/-- A UDP peer address, as Python's `(host, port)` tuple from `recvfrom`. -/
abbrev Addr := String × Nat

/-- `struct.unpack('>H', data[i:i+2])`: big-endian 16-bit read; `none` models
`struct.error` when fewer than 2 bytes are available at `i`. -/
def readU16? (d : Bytes) (i : Nat) : Option Nat :=
  match d[i]?, d[i+1]? with
  | some a, some b => some (a * 256 + b)
  | _, _ => none

/-- `struct.unpack('>I', data[i:i+4])`: big-endian 32-bit read. -/
def readU32? (d : Bytes) (i : Nat) : Option Nat :=
  match d[i]?, d[i+1]?, d[i+2]?, d[i+3]? with
  | some a, some b, some c, some e => some (((a * 256 + b) * 256 + c) * 256 + e)
  | _, _, _, _ => none

/-- The `field_info` dict built for each decoded field specifier
(lines 129-134 of the source). -/
structure FieldInfo where
  ftype : Nat
  flen : Nat
  enterprise : Option Nat
  enterprise_bit : Bool
deriving DecidableEq, Repr

/-- One entry of `self.field_type_stats` (keyed by raw field type code). -/
structure FieldTypeStats where
  count : Nat
  lengths : List Nat
  enterprise_count : Nat
deriving DecidableEq, Repr

/-- One entry of `self.template_stats`. -/
structure TemplateStats where
  count : Nat
  field_count : Nat
  fields : List FieldInfo
deriving DecidableEq, Repr

/-- Template key: `(addr, obs_domain, template_id)` (line 97). -/
abbrev TKey := Addr × Nat × Nat

/-- The inspector's two statistics tables. -/
structure InspectorState where
  template_stats : List (TKey × TemplateStats)
  field_type_stats : List (Nat × FieldTypeStats)
deriving DecidableEq, Repr

/-- The state at process start: both tables empty. -/
def initialState : InspectorState := ⟨[], []⟩

/-- One template record as decoded (and printed) by `analyze_template_set`:
template id, declared field count, and the decoded field list that is stored
for it. -/
structure TemplateRecord where
  tid : Nat
  declared : Nat
  fields : List FieldInfo
deriving DecidableEq, Repr

/-- The suspicious-length console flags of lines 151-155. -/
inductive Flag where
  | varLength (ftype : Nat)
  | largeLength (ftype flen : Nat)
deriving DecidableEq, Repr

/-- Lines 151-155: flag length 65535 as "variable length", else lengths
greater than 1000 as "large length". -/
def flagsFor (t l : Nat) : List Flag :=
  if l = 65535 then [Flag.varLength t]
  else if 1000 < l then [Flag.largeLength t l]
  else []

/-- Python truthiness of the `enterprise_number` variable (`None` or an `int`):
`if enterprise_number:` is true only for a present, nonzero number. -/
def pyTruthy : Option Nat → Bool
  | none => false
  | some n => n != 0

/-- Association-list lookup in `self.field_type_stats`. -/
def lookupFT : List (Nat × FieldTypeStats) → Nat → Option FieldTypeStats
  | [], _ => none
  | (t', s) :: rest, t => if t' = t then some s else lookupFT rest t

/-- Lines 138-149: create the `field_type_stats` entry if absent (at the end,
as Python dicts append new keys), then increment `count`, append the length,
and increment `enterprise_count` when `enterprise_number` is truthy. -/
def updateFieldTypeStats (tbl : List (Nat × FieldTypeStats)) (t l : Nat)
    (e : Option Nat) : List (Nat × FieldTypeStats) :=
  match tbl with
  | [] => [(t, ⟨1, [l], if pyTruthy e then 1 else 0⟩)]
  | (t', s) :: rest =>
    if t' = t then
      (t', ⟨s.count + 1, s.lengths ++ [l],
        s.enterprise_count + if pyTruthy e then 1 else 0⟩) :: rest
    else (t', s) :: updateFieldTypeStats rest t l e

/-- Association-list lookup in `self.template_stats`. -/
def lookupT : List (TKey × TemplateStats) → TKey → Option TemplateStats
  | [], _ => none
  | (k', s) :: rest, k => if k' = k then some s else lookupT rest k

/-- Lines 97-104: create the `template_stats` entry if absent (with `count`
0, the announced field count and an empty field list), then increment its
occurrence count.  Note `field_count` is only set at creation. -/
def bumpTemplate (tbl : List (TKey × TemplateStats)) (k : TKey) (fc : Nat) :
    List (TKey × TemplateStats) :=
  match tbl with
  | [] => [(k, ⟨1, fc, []⟩)]
  | (k', s) :: rest =>
    if k' = k then (k', ⟨s.count + 1, s.field_count, s.fields⟩) :: rest
    else (k', s) :: bumpTemplate rest k fc

/-- Line 162: `self.template_stats[key]['fields'] = fields`; `none` models the
`KeyError` raised when the key is absent (never reached: the key was just
created by `bumpTemplate`). -/
def setTemplateFields : List (TKey × TemplateStats) → TKey → List FieldInfo →
    Option (List (TKey × TemplateStats))
  | [], _, _ => none
  | (k', s) :: rest, k, fs =>
    if k' = k then some ((k', ⟨s.count, s.field_count, fs⟩) :: rest)
    else (setTemplateFields rest k fs).map ((k', s) :: ·)

/-- Lines 115-134: decode one field specifier at `off` (the `field_offset + 4
> len(data)` bound check is the caller's, lines 111-113).  Returns the
`field_info` and the advanced cursor.  `none` propagates a read failure
(a raised `struct.error`). -/
def decodeField (data : Bytes) (off : Nat) : Option (FieldInfo × Nat) :=
  match readU16? data off with
  | none => none
  | some t =>
    match readU16? data (off + 2) with
    | none => none
    | some l =>
      if t &&& 32768 != 0 then
        if off + 8 ≤ data.length then
          match readU32? data (off + 4) with
          | none => none
          | some e => some (⟨t, l, some e, t &&& 32768 != 0⟩, off + 8)
        else some (⟨t, l, none, t &&& 32768 != 0⟩, off + 4)
      else some (⟨t, l, none, t &&& 32768 != 0⟩, off + 4)

/-- Lines 110-159: the `for i in range(field_count)` loop.  Decodes up to `n`
field specifiers starting at `off`, breaking early when fewer than 4 bytes
remain; updates `field_type_stats` and emits length flags per field.  Returns
the decoded field list, the final cursor, the updated table and the flags. -/
def parseFields (data : Bytes) :
    Nat → Nat → List (Nat × FieldTypeStats) →
    Option (List FieldInfo × Nat × List (Nat × FieldTypeStats) × List Flag)
  | 0, off, ft => some ([], off, ft, [])
  | n + 1, off, ft =>
    if off + 4 ≤ data.length then
      match decodeField data off with
      | none => none
      | some (fi, off') =>
        match parseFields data n off'
            (updateFieldTypeStats ft fi.ftype fi.flen fi.enterprise) with
        | none => none
        | some (rest, offF, ftF, flagsF) =>
          some (fi :: rest, offF, ftF, flagsFor fi.ftype fi.flen ++ flagsF)
    else some ([], off, ft, [])

/-- Lines 88-165 (`analyze_template_set`): the `while offset + 4 <=
len(data)` loop over template records, with explicit fuel. -/
def analyzeLoop (data : Bytes) (addr : Addr) (dom : Nat) :
    Nat → Nat → InspectorState →
    Option (InspectorState × List TemplateRecord × List Flag)
  | 0, _, _ => none
  | fuel + 1, offset, st =>
    if offset + 4 ≤ data.length then
      match readU16? data offset, readU16? data (offset + 2) with
      | some tid, some fc =>
        match parseFields data fc (offset + 4) st.field_type_stats with
        | none => none
        | some (fields, fieldOffset, ft1, flags1) =>
          match setTemplateFields
              (bumpTemplate st.template_stats (addr, dom, tid) fc)
              (addr, dom, tid) fields with
          | none => none
          | some tstats2 =>
            match analyzeLoop data addr dom fuel fieldOffset ⟨tstats2, ft1⟩ with
            | none => none
            | some (stF, recs, flagsF) =>
              some (stF, ⟨tid, fc, fields⟩ :: recs, flags1 ++ flagsF)
      | _, _ => none
    else some (st, [], [])

/-- `analyze_template_set` on a Set payload (the loop with sufficient fuel). -/
def analyze_template_set (data : Bytes) (addr : Addr) (dom : Nat)
    (st : InspectorState) :
    Option (InspectorState × List TemplateRecord × List Flag) :=
  analyzeLoop data addr dom (data.length + 1) 0 st

/-- Lines 70-86: the Set iteration of `process_ipfix_packet`, with explicit
fuel.  A Set with `set_length < 4` breaks the loop; Set id 2 dispatches to the
template set decoder; options template Sets (id 3), data Sets (id ≥ 256) and
other ids only print / are skipped. -/
def setsLoop (data : Bytes) (addr : Addr) (msglen dom : Nat) :
    Nat → Nat → InspectorState →
    Option (InspectorState × List TemplateRecord × List Flag)
  | 0, _, _ => none
  | fuel + 1, offset, st =>
    if offset + 4 ≤ data.length ∧ offset < msglen then
      match readU16? data offset, readU16? data (offset + 2) with
      | some setId, some setLen =>
        if setLen < 4 then some (st, [], [])
        else
          match (if setId = 2 then
              analyze_template_set ((data.drop (offset + 4)).take (setLen - 4))
                addr dom st
            else some (st, [], [])) with
          | none => none
          | some (st1, r1, f1) =>
            match setsLoop data addr msglen dom fuel (offset + setLen) st1 with
            | none => none
            | some (st2, r2, f2) => some (st2, r1 ++ r2, f1 ++ f2)
      | _, _ => none
    else some (st, [], [])

/-- Lines 59-86 (`process_ipfix_packet`): packets shorter than the 16-byte
IPFIX header are discarded; otherwise the header is decoded and the Sets are
walked from offset 16. -/
def process_ipfix_packet (data : Bytes) (addr : Addr) (st : InspectorState) :
    Option (InspectorState × List TemplateRecord × List Flag) :=
  if data.length < 16 then some (st, [], [])
  else
    match readU16? data 0, readU16? data 2, readU32? data 4, readU32? data 8,
        readU32? data 12 with
    | some _ver, some msglen, some _stamp, some _seq, some dom =>
      setsLoop data addr msglen dom (data.length + 1) 16 st
    | _, _, _, _, _ => none

/-- Lines 42-57 (`process_packet`): datagrams shorter than 4 bytes are
dropped; version 10 dispatches to the IPFIX decoder; versions 5 and 9 and
unknown versions are only classified and printed (no statistics mutation). -/
def process_packet (st : InspectorState) (addr : Addr) (data : Bytes) :
    Option (InspectorState × List TemplateRecord × List Flag) :=
  if data.length < 4 then some (st, [], [])
  else
    match readU16? data 0 with
    | none => none
    | some version =>
      if version = 10 then process_ipfix_packet data addr st
      else some (st, [], [])

/-- Fold `process_packet` over a list of received `(addr, datagram)` pairs
starting from a given state (the receive loop of `start_listening`). -/
def processAllFrom (st : InspectorState) :
    List (Addr × Bytes) → Option InspectorState
  | [] => some st
  | (a, d) :: rest =>
    match process_packet st a d with
    | none => none
    | some (st', _, _) => processAllFrom st' rest

/-- The receive loop from process start. -/
def processAll (pkts : List (Addr × Bytes)) : Option InspectorState :=
  processAllFrom initialState pkts

/-- The template records decoded while processing one datagram (empty when the
datagram is discarded). -/
def decodedRecords (st : InspectorState) (addr : Addr) (data : Bytes) :
    List TemplateRecord :=
  match process_packet st addr data with
  | some (_, recs, _) => recs
  | none => []

/-! ### Report generation (`print_analysis`, lines 179-218)

Python's `sorted(items, key=lambda x: x[1]['count'], reverse=True)` is a
stable sort: entries are ordered by descending count and entries with equal
counts keep their original (dict-insertion) order.  Any stable sort computes
the same list, so it is embedded as `List.insertionSort` with the relation
"may come first" = "has a count at least as large". -/

/-- "May precede" for a stable descending-by-`cnt` sort. -/
def byCountDesc (cnt : α → Nat) (a b : α) : Prop := cnt b ≤ cnt a

instance (cnt : α → Nat) : DecidableRel (byCountDesc cnt) :=
  fun a b => Nat.decLe _ _

instance (cnt : α → Nat) : IsTotal α (byCountDesc cnt) :=
  ⟨fun a b => (Nat.le_total (cnt b) (cnt a)).imp id id⟩

instance (cnt : α → Nat) : IsTrans α (byCountDesc cnt) :=
  ⟨fun _ _ _ h1 h2 => Nat.le_trans h2 h1⟩

/-- The occurrence count of a `template_stats` item. -/
def tplCount (e : TKey × TemplateStats) : Nat := e.2.count

/-- The occurrence count of a `field_type_stats` item. -/
def ftCount (e : Nat × FieldTypeStats) : Nat := e.2.count

/-- Lines 185-186: `sorted_templates`. -/
def sortedTemplates (st : InspectorState) : List (TKey × TemplateStats) :=
  List.insertionSort (byCountDesc tplCount) st.template_stats

/-- Lines 188-190: the "Most Common Templates" report section,
`sorted_templates[:10]`. -/
def topTemplates (st : InspectorState) : List (TKey × TemplateStats) :=
  (sortedTemplates st).take 10

/-- Lines 194-195: `sorted_field_types`. -/
def sortedFieldTypes (st : InspectorState) : List (Nat × FieldTypeStats) :=
  List.insertionSort (byCountDesc ftCount) st.field_type_stats

/-- Python `max` over a list of observed lengths (they are never empty when
the report runs; on `[]` Python would raise, here the value is unused). -/
def maxList (l : List Nat) : Nat := l.foldr Nat.max 0

/-- Lines 212-218: the "Problematic Field Types" report section: each field
type whose lengths contain 65535 or whose max length exceeds 1000, reported
with its max length and the number of 65535 occurrences. -/
def problematicFieldTypes (st : InspectorState) : List (Nat × Nat × Nat) :=
  (sortedFieldTypes st).filterMap fun e =>
    if 65535 ∈ e.2.lengths ∨ 1000 < maxList e.2.lengths then
      some (e.1, maxList e.2.lengths, e.2.lengths.count 65535)
    else none

/-- Strict natural (lexicographic) order on template keys, as Python compares
the `(addr, domain, template_id)` tuples: source host string, then port, then
observation domain, then template id (at each level, order by the component
when the components differ, else fall through to the next). -/
def keyLt (a b : TKey) : Prop :=
  if a.1.1 = b.1.1 then
    if a.1.2 = b.1.2 then
      if a.2.1 = b.2.1 then a.2.2 < b.2.2
      else a.2.1 < b.2.1
    else a.1.2 < b.1.2
  else a.1.1 < b.1.1

instance (a b : TKey) : Decidable (keyLt a b) := by
  unfold keyLt; infer_instance

/-- Reflexive natural order on template keys. -/
def keyLe (a b : TKey) : Prop := keyLt a b ∨ a = b

instance (a b : TKey) : Decidable (keyLe a b) := by
  unfold keyLe; infer_instance

/-- The ordering property the spec claims of the "Most Common Templates"
list: descending by count, with ties in the key's natural order. -/
def naturallyTieOrdered (l : List (TKey × TemplateStats)) : Prop :=
  l.Pairwise fun a b =>
    b.2.count < a.2.count ∨ (a.2.count = b.2.count ∧ keyLe a.1 b.1)

instance (l : List (TKey × TemplateStats)) :
    Decidable (naturallyTieOrdered l) := by
  unfold naturallyTieOrdered; infer_instance

/-! ### Wire encoding of well-formed IPFIX template packets

Used to state the round-trip claim: a packet built by these encoders is a
well-formed IPFIX datagram whose declared lengths are consistent and whose
template records are fully present. -/

/-- Big-endian 16-bit encoding. -/
def encodeU16 (n : Nat) : Bytes := [n / 256 % 256, n % 256]

/-- Big-endian 32-bit encoding. -/
def encodeU32 (n : Nat) : Bytes :=
  [n / 16777216 % 256, n / 65536 % 256, n / 256 % 256, n % 256]

/-- A field specifier as announced on the wire. -/
structure WireSpec where
  ftype : Nat
  flen : Nat
  ent : Option Nat
deriving DecidableEq, Repr

/-- The enterprise number of a well-formed wire specifier is present exactly
when bit 15 of the type is set, and fits 32 bits. -/
def entOk (t : Nat) : Option Nat → Prop
  | some e => e < 4294967296 ∧ t &&& 32768 ≠ 0
  | none => t &&& 32768 = 0

instance (t : Nat) : (e : Option Nat) → Decidable (entOk t e)
  | some _ => instDecidableAnd
  | none => Nat.decEq _ _

/-- A wire field specifier is well-formed when its fields fit their widths and
the enterprise number is present exactly when bit 15 of the type is set. -/
def WireSpec.valid (s : WireSpec) : Prop :=
  s.ftype < 65536 ∧ s.flen < 65536 ∧ entOk s.ftype s.ent

instance (s : WireSpec) : Decidable s.valid :=
  instDecidableAnd

/-- The `field_info` the decoder yields for a fully present wire specifier. -/
def WireSpec.toInfo (s : WireSpec) : FieldInfo :=
  ⟨s.ftype, s.flen, s.ent, s.ftype &&& 32768 != 0⟩

/-- Wire bytes of one field specifier. -/
def encodeSpec (s : WireSpec) : Bytes :=
  encodeU16 s.ftype ++ encodeU16 s.flen ++
    (match s.ent with
     | some e => encodeU32 e
     | none => [])

/-- Wire bytes of a field specifier list. -/
def encodeSpecs : List WireSpec → Bytes
  | [] => []
  | s :: ss => encodeSpec s ++ encodeSpecs ss

/-- One template record as announced on the wire (the declared field count is
the length of `specs`: nothing is truncated). -/
structure WireTemplate where
  tid : Nat
  specs : List WireSpec
deriving DecidableEq, Repr

/-- Well-formedness of a wire template record. -/
def WireTemplate.valid (t : WireTemplate) : Prop :=
  t.tid < 65536 ∧ t.specs.length < 65536 ∧ ∀ s ∈ t.specs, s.valid

instance (t : WireTemplate) : Decidable t.valid :=
  show Decidable (t.tid < 65536 ∧ t.specs.length < 65536 ∧
    ∀ s ∈ t.specs, s.valid) from inferInstance

/-- The template record the decoder yields for a fully present template. -/
def WireTemplate.toRecord (t : WireTemplate) : TemplateRecord :=
  ⟨t.tid, t.specs.length, t.specs.map WireSpec.toInfo⟩

/-- Wire bytes of one template record. -/
def encodeTemplate (t : WireTemplate) : Bytes :=
  encodeU16 t.tid ++ encodeU16 t.specs.length ++ encodeSpecs t.specs

/-- Wire bytes of a template record list. -/
def encodeTemplates : List WireTemplate → Bytes
  | [] => []
  | t :: ts => encodeTemplate t ++ encodeTemplates ts

/-- A well-formed IPFIX datagram: version 10, consistent declared message
length, export time 0, sequence 0, the given observation domain, and a single
Template Set (id 2) holding the given template records. -/
def mkIPFIXPacket (dom : Nat) (ts : List WireTemplate) : Bytes :=
  encodeU16 10 ++ encodeU16 (20 + (encodeTemplates ts).length) ++
    encodeU32 0 ++ encodeU32 0 ++ encodeU32 dom ++
    encodeU16 2 ++ encodeU16 (4 + (encodeTemplates ts).length) ++
    encodeTemplates ts

/-! ### Basic lemmas about byte reads -/

theorem getElem?_append_length_add (pre l : List Nat) (i : Nat) :
    (pre ++ l)[pre.length + i]? = l[i]? := by
  induction pre with
  | nil => simp
  | cons p ps ih =>
    have h : ps.length + 1 + i = (ps.length + i) + 1 := by omega
    simp only [List.cons_append, List.length_cons, h, List.getElem?_cons_succ]
    exact ih

theorem readU16?_append (pre rest : Bytes) (a b : Nat) :
    readU16? (pre ++ a :: b :: rest) pre.length = some (a * 256 + b) := by
  have h0 : (pre ++ a :: b :: rest)[pre.length]? = some a := by
    simpa using getElem?_append_length_add pre (a :: b :: rest) 0
  have h1 : (pre ++ a :: b :: rest)[pre.length + 1]? = some b := by
    simpa using getElem?_append_length_add pre (a :: b :: rest) 1
  simp [readU16?, h0, h1]

theorem readU32?_append (pre rest : Bytes) (a b c e : Nat) :
    readU32? (pre ++ a :: b :: c :: e :: rest) pre.length =
      some (((a * 256 + b) * 256 + c) * 256 + e) := by
  have h0 : (pre ++ a :: b :: c :: e :: rest)[pre.length]? = some a := by
    simpa using getElem?_append_length_add pre (a :: b :: c :: e :: rest) 0
  have h1 : (pre ++ a :: b :: c :: e :: rest)[pre.length + 1]? = some b := by
    simpa using getElem?_append_length_add pre (a :: b :: c :: e :: rest) 1
  have h2 : (pre ++ a :: b :: c :: e :: rest)[pre.length + 2]? = some c := by
    simpa using getElem?_append_length_add pre (a :: b :: c :: e :: rest) 2
  have h3 : (pre ++ a :: b :: c :: e :: rest)[pre.length + 3]? = some e := by
    simpa using getElem?_append_length_add pre (a :: b :: c :: e :: rest) 3
  simp [readU32?, h0, h1, h2, h3]

theorem readU16?_encodeU16 (pre rest : Bytes) (n : Nat) (h : n < 65536) :
    readU16? (pre ++ encodeU16 n ++ rest) pre.length = some n := by
  have hv : n / 256 % 256 * 256 + n % 256 = n := by omega
  simpa [encodeU16, hv] using readU16?_append pre rest (n / 256 % 256) (n % 256)

theorem readU32?_encodeU32 (pre rest : Bytes) (n : Nat) (h : n < 4294967296) :
    readU32? (pre ++ encodeU32 n ++ rest) pre.length = some n := by
  have hv : ((n / 16777216 % 256 * 256 + n / 65536 % 256) * 256 +
      n / 256 % 256) * 256 + n % 256 = n := by omega
  simpa [encodeU32, hv] using
    readU32?_append pre rest (n / 16777216 % 256) (n / 65536 % 256)
      (n / 256 % 256) (n % 256)

theorem readU16?_isSome {d : Bytes} {i : Nat} (h : i + 2 ≤ d.length) :
    (readU16? d i).isSome := by
  have h0 : i < d.length := by omega
  have h1 : i + 1 < d.length := by omega
  simp [readU16?, List.getElem?_eq_getElem, h0, h1]

theorem readU32?_isSome {d : Bytes} {i : Nat} (h : i + 4 ≤ d.length) :
    (readU32? d i).isSome := by
  have h0 : i < d.length := by omega
  have h1 : i + 1 < d.length := by omega
  have h2 : i + 2 < d.length := by omega
  have h3 : i + 3 < d.length := by omega
  simp [readU32?, List.getElem?_eq_getElem, h0, h1, h2, h3]

theorem readU16?_eq_some {d : Bytes} {i : Nat} (h : i + 2 ≤ d.length) :
    ∃ v, readU16? d i = some v :=
  Option.isSome_iff_exists.mp (readU16?_isSome h)

theorem readU32?_eq_some {d : Bytes} {i : Nat} (h : i + 4 ≤ d.length) :
    ∃ v, readU32? d i = some v :=
  Option.isSome_iff_exists.mp (readU32?_isSome h)

/-! ### Safety: every checked decode step succeeds -/

theorem decodeField_isSome {data : Bytes} {off : Nat}
    (h : off + 4 ≤ data.length) : (decodeField data off).isSome := by
  obtain ⟨t, ht⟩ := readU16?_eq_some (d := data) (i := off) (by omega)
  obtain ⟨l, hl⟩ := readU16?_eq_some (d := data) (i := off + 2) (by omega)
  unfold decodeField
  rw [ht, hl]
  dsimp only
  split
  · split
    next hlen =>
      obtain ⟨e, he⟩ := readU32?_eq_some (d := data) (i := off + 4) (by omega)
      rw [he]
      simp
    next hlen => simp
  · simp

theorem decodeField_advances {data : Bytes} {off : Nat} {fi : FieldInfo}
    {off' : Nat} (h : decodeField data off = some (fi, off')) :
    off + 4 ≤ off' := by
  unfold decodeField at h
  cases ht : readU16? data off <;> rw [ht] at h <;> dsimp only at h
  · simp at h
  case some t =>
    cases hl : readU16? data (off + 2) <;> rw [hl] at h <;> dsimp only at h
    · simp at h
    case some l =>
      split at h
      · split at h
        · cases he : readU32? data (off + 4) <;> rw [he] at h <;>
            dsimp only at h
          · simp at h
          · simp only [Option.some.injEq, Prod.mk.injEq] at h
            omega
        · simp only [Option.some.injEq, Prod.mk.injEq] at h
          omega
      · simp only [Option.some.injEq, Prod.mk.injEq] at h
        omega

theorem parseFields_isSome (data : Bytes) :
    ∀ (n off : Nat) (ft : List (Nat × FieldTypeStats)),
      (parseFields data n off ft).isSome := by
  intro n
  induction n with
  | zero => intro off ft; simp [parseFields]
  | succ m ih =>
    intro off ft
    unfold parseFields
    by_cases h : off + 4 ≤ data.length
    · obtain ⟨⟨fi, off'⟩, hd⟩ :=
        Option.isSome_iff_exists.mp (decodeField_isSome h)
      obtain ⟨⟨rest, offF, ftF, flagsF⟩, hr⟩ :=
        Option.isSome_iff_exists.mp
          (ih off' (updateFieldTypeStats ft fi.ftype fi.flen fi.enterprise))
      simp [h, hd, hr]
    · simp [h]

theorem parseFields_advances (data : Bytes) :
    ∀ (n off : Nat) (ft : List (Nat × FieldTypeStats)) fs offF ftF flagsF,
      parseFields data n off ft = some (fs, offF, ftF, flagsF) →
      off ≤ offF := by
  intro n
  induction n with
  | zero =>
    intro off ft fs offF ftF flagsF h
    simp [parseFields] at h
    omega
  | succ m ih =>
    intro off ft fs offF ftF flagsF h
    unfold parseFields at h
    by_cases hlen : off + 4 ≤ data.length
    · rw [if_pos hlen] at h
      cases hd : decodeField data off with
      | none => rw [hd] at h; simp at h
      | some p =>
        obtain ⟨fi, off'⟩ := p
        rw [hd] at h
        have hadv := decodeField_advances hd
        cases hr : parseFields data m off'
            (updateFieldTypeStats ft fi.ftype fi.flen fi.enterprise) with
        | none => simp [hr] at h
        | some q =>
          obtain ⟨rest, offF', ftF', flagsF'⟩ := q
          have := ih off' _ rest offF' ftF' flagsF' hr
          simp [hr] at h
          omega
    · rw [if_neg hlen] at h
      simp at h
      omega

theorem setTemplateFields_bump_isSome (tbl : List (TKey × TemplateStats))
    (k : TKey) (fc : Nat) (fs : List FieldInfo) :
    (setTemplateFields (bumpTemplate tbl k fc) k fs).isSome := by
  induction tbl with
  | nil => simp [bumpTemplate, setTemplateFields]
  | cons e rest ih =>
    obtain ⟨k', s⟩ := e
    by_cases hk : k' = k
    · simp [bumpTemplate, setTemplateFields, hk]
    · simp only [bumpTemplate, setTemplateFields, if_neg hk]
      obtain ⟨tbl', htbl'⟩ := Option.isSome_iff_exists.mp ih
      simp [htbl']

theorem analyzeLoop_isSome (data : Bytes) (addr : Addr) (dom : Nat) :
    ∀ (fuel offset : Nat) (st : InspectorState),
      data.length < offset + fuel → 0 < fuel →
      (analyzeLoop data addr dom fuel offset st).isSome := by
  intro fuel
  induction fuel with
  | zero => intro offset st _ h0; omega
  | succ f ih =>
    intro offset st hfuel _
    unfold analyzeLoop
    by_cases hb : offset + 4 ≤ data.length
    · rw [if_pos hb]
      obtain ⟨tid, htid⟩ := readU16?_eq_some (d := data) (i := offset) (by omega)
      obtain ⟨fc, hfc⟩ := readU16?_eq_some (d := data) (i := offset + 2) (by omega)
      rw [htid, hfc]
      dsimp only
      obtain ⟨⟨fields, fieldOffset, ft1, flags1⟩, hp⟩ :=
        Option.isSome_iff_exists.mp
          (parseFields_isSome data fc (offset + 4) st.field_type_stats)
      rw [hp]
      dsimp only
      obtain ⟨tstats2, hset⟩ :=
        Option.isSome_iff_exists.mp
          (setTemplateFields_bump_isSome st.template_stats (addr, dom, tid) fc fields)
      rw [hset]
      dsimp only
      have hadv : offset + 4 ≤ fieldOffset :=
        parseFields_advances data fc (offset + 4) st.field_type_stats
          fields fieldOffset ft1 flags1 hp
      obtain ⟨⟨stF, recs, flagsF⟩, hrec⟩ :=
        Option.isSome_iff_exists.mp
          (ih fieldOffset ⟨tstats2, ft1⟩ (by omega) (by omega))
      rw [hrec]
      simp
    · rw [if_neg hb]
      simp

theorem analyze_template_set_isSome (data : Bytes) (addr : Addr) (dom : Nat)
    (st : InspectorState) : (analyze_template_set data addr dom st).isSome :=
  analyzeLoop_isSome data addr dom (data.length + 1) 0 st (by omega) (by omega)

theorem setsLoop_isSome (data : Bytes) (addr : Addr) (msglen dom : Nat) :
    ∀ (fuel offset : Nat) (st : InspectorState),
      data.length < offset + fuel → 0 < fuel →
      (setsLoop data addr msglen dom fuel offset st).isSome := by
  intro fuel
  induction fuel with
  | zero => intro offset st _ h0; omega
  | succ f ih =>
    intro offset st hfuel _
    unfold setsLoop
    by_cases hb : offset + 4 ≤ data.length ∧ offset < msglen
    · rw [if_pos hb]
      obtain ⟨setId, hid⟩ := readU16?_eq_some (d := data) (i := offset) (by omega)
      obtain ⟨setLen, hlen⟩ :=
        readU16?_eq_some (d := data) (i := offset + 2) (by omega)
      rw [hid, hlen]
      dsimp only
      by_cases hsl : setLen < 4
      · rw [if_pos hsl]
        simp
      · rw [if_neg hsl]
        obtain ⟨⟨st1, r1, f1⟩, h1⟩ :
            ∃ v, (if setId = 2 then
              analyze_template_set ((data.drop (offset + 4)).take (setLen - 4))
                addr dom st
            else some (st, [], [])) = some v := by
          by_cases h2 : setId = 2
          · rw [if_pos h2]
            exact Option.isSome_iff_exists.mp (analyze_template_set_isSome _ _ _ _)
          · rw [if_neg h2]
            exact ⟨(st, [], []), rfl⟩
        rw [h1]
        dsimp only
        obtain ⟨⟨st2, r2, f2⟩, hrec⟩ :=
          Option.isSome_iff_exists.mp
            (ih (offset + setLen) st1 (by omega) (by omega))
        rw [hrec]
        simp
    · rw [if_neg hb]
      simp

theorem process_ipfix_packet_isSome (data : Bytes) (addr : Addr)
    (st : InspectorState) : (process_ipfix_packet data addr st).isSome := by
  unfold process_ipfix_packet
  by_cases h : data.length < 16
  · rw [if_pos h]; simp
  · rw [if_neg h]
    obtain ⟨v0, h0⟩ := readU16?_eq_some (d := data) (i := 0) (by omega)
    obtain ⟨v2, h2⟩ := readU16?_eq_some (d := data) (i := 2) (by omega)
    obtain ⟨v4, h4⟩ := readU32?_eq_some (d := data) (i := 4) (by omega)
    obtain ⟨v8, h8⟩ := readU32?_eq_some (d := data) (i := 8) (by omega)
    obtain ⟨v12, h12⟩ := readU32?_eq_some (d := data) (i := 12) (by omega)
    rw [h0, h2, h4, h8, h12]
    dsimp only
    exact setsLoop_isSome data addr v2 v12 (data.length + 1) 16 st
      (by omega) (by omega)

/-! ### The stable sort used by the report -/

theorem filter_orderedInsert (cnt : α → Nat) (c : Nat) (x : α) (l : List α) :
    (List.orderedInsert (byCountDesc cnt) x l).filter (fun e => cnt e == c) =
      if cnt x = c then x :: l.filter (fun e => cnt e == c)
      else l.filter (fun e => cnt e == c) := by
  induction l with
  | nil =>
    by_cases hx : cnt x = c <;> simp [List.orderedInsert, hx]
  | cons y ys ih =>
    rw [List.orderedInsert]
    split
    next hr =>
      by_cases hx : cnt x = c <;> simp [List.filter_cons, hx]
    next hr =>
      have hlt : cnt x < cnt y := by
        simp only [byCountDesc] at hr
        omega
      by_cases hx : cnt x = c
      · have hy : ¬ cnt y = c := by omega
        simp [List.filter_cons, hx, hy, ih]
      · by_cases hy : cnt y = c <;> simp [List.filter_cons, hx, hy, ih]

theorem filter_insertionSort (cnt : α → Nat) (c : Nat) (l : List α) :
    (List.insertionSort (byCountDesc cnt) l).filter (fun e => cnt e == c) =
      l.filter (fun e => cnt e == c) := by
  induction l with
  | nil => rfl
  | cons x xs ih =>
    rw [List.insertionSort, filter_orderedInsert]
    by_cases hx : cnt x = c <;> simp [List.filter_cons, hx, ih]

/-! ### Characterization of the statistics-table updates -/

/-- The `field_type_stats` entry for `t`, or the freshly created zero entry
(lines 139-144). -/
def getFT (tbl : List (Nat × FieldTypeStats)) (t : Nat) : FieldTypeStats :=
  (lookupFT tbl t).getD ⟨0, [], 0⟩

theorem lookupFT_update_self (tbl : List (Nat × FieldTypeStats)) (t l : Nat)
    (e : Option Nat) :
    lookupFT (updateFieldTypeStats tbl t l e) t =
      some ⟨(getFT tbl t).count + 1, (getFT tbl t).lengths ++ [l],
        (getFT tbl t).enterprise_count + if pyTruthy e then 1 else 0⟩ := by
  induction tbl with
  | nil => simp [updateFieldTypeStats, lookupFT, getFT]
  | cons p rest ih =>
    obtain ⟨t', s⟩ := p
    by_cases ht : t' = t
    · simp [updateFieldTypeStats, lookupFT, getFT, ht]
    · simp [updateFieldTypeStats, lookupFT, getFT, ht, ih]

theorem lookupFT_update_other (tbl : List (Nat × FieldTypeStats)) (t l : Nat)
    (e : Option Nat) (t' : Nat) (h : t' ≠ t) :
    lookupFT (updateFieldTypeStats tbl t l e) t' = lookupFT tbl t' := by
  induction tbl with
  | nil => simp [updateFieldTypeStats, lookupFT, Ne.symm h]
  | cons p rest ih =>
    obtain ⟨t'', s⟩ := p
    by_cases ht : t'' = t
    · subst ht
      simp [updateFieldTypeStats, lookupFT, Ne.symm h]
    · by_cases ht' : t'' = t'
      · simp [updateFieldTypeStats, lookupFT, ht, ht', h]
      · simp [updateFieldTypeStats, lookupFT, ht, ht', ih]

theorem lookupT_bump_present (tbl : List (TKey × TemplateStats)) (k : TKey)
    (fc : Nat) (s : TemplateStats) (h : lookupT tbl k = some s) :
    lookupT (bumpTemplate tbl k fc) k =
      some ⟨s.count + 1, s.field_count, s.fields⟩ := by
  induction tbl with
  | nil => simp [lookupT] at h
  | cons p rest ih =>
    obtain ⟨k', s'⟩ := p
    by_cases hk : k' = k
    · simp [lookupT, hk] at h
      subst h
      simp [bumpTemplate, lookupT, hk]
    · simp [lookupT, hk] at h
      simp [bumpTemplate, lookupT, hk, ih h]

theorem setTemplateFields_lookup (tbl : List (TKey × TemplateStats)) (k : TKey)
    (fs : List FieldInfo) (s : TemplateStats) (h : lookupT tbl k = some s) :
    ∃ tbl', setTemplateFields tbl k fs = some tbl' ∧
      lookupT tbl' k = some ⟨s.count, s.field_count, fs⟩ := by
  induction tbl with
  | nil => simp [lookupT] at h
  | cons p rest ih
  =>
    obtain ⟨k', s'⟩ := p
    by_cases hk : k' = k
    · simp [lookupT, hk] at h
      subst h
      refine ⟨(k', ⟨s'.count, s'.field_count, fs⟩) :: rest, ?_, ?_⟩
      · simp [setTemplateFields, hk]
      · simp [lookupT, hk]
    · simp [lookupT, hk] at h
      obtain ⟨tbl', h1, h2⟩ := ih h
      refine ⟨(k', s') :: tbl', ?_, ?_⟩
      · simp [setTemplateFields, hk, h1]
      · simp [lookupT, hk, h2]

theorem process_packet_isSome (st : InspectorState) (addr : Addr)
    (data : Bytes) : (process_packet st addr data).isSome := by
  unfold process_packet
  by_cases h : data.length < 4
  · rw [if_pos h]; simp
  · rw [if_neg h]
    obtain ⟨v0, h0⟩ := readU16?_eq_some (d := data) (i := 0) (by omega)
    rw [h0]
    dsimp only
    by_cases hv : v0 = 10
    · rw [if_pos hv]
      exact process_ipfix_packet_isSome data addr st
    · rw [if_neg hv]
      simp

/-! ### Round trip: decoding a well-formed encoded packet -/

theorem length_encodeU16 (n : Nat) : (encodeU16 n).length = 2 := rfl

theorem length_encodeU32 (n : Nat) : (encodeU32 n).length = 4 := rfl

theorem length_encodeSpec_ge (s : WireSpec) : 4 ≤ (encodeSpec s).length := by
  obtain ⟨t, l, ent⟩ := s
  cases ent <;> simp [encodeSpec, encodeU16, encodeU32]

theorem length_encodeTemplate (t : WireTemplate) :
    (encodeTemplate t).length = 4 + (encodeSpecs t.specs).length := by
  simp [encodeTemplate, encodeU16]
  omega

theorem length_encodeTemplates_ge (ts : List WireTemplate) :
    ts.length ≤ (encodeTemplates ts).length := by
  induction ts with
  | nil => simp [encodeTemplates]
  | cons t rest ih =>
    have h := length_encodeTemplate t
    simp only [encodeTemplates, List.length_append, List.length_cons]
    omega

theorem decodeField_encode (pre rest : Bytes) (s : WireSpec) (hv : s.valid) :
    decodeField (pre ++ encodeSpec s ++ rest) pre.length =
      some (s.toInfo, pre.length + (encodeSpec s).length) := by
  obtain ⟨t, l, ent⟩ := s
  obtain ⟨h1, h2, h3⟩ := hv
  cases ent with
  | none =>
    have h3' : t &&& 32768 = 0 := h3
    have hr1 : readU16? (pre ++ encodeSpec ⟨t, l, none⟩ ++ rest) pre.length
        = some t := by
      have heq : pre ++ encodeSpec ⟨t, l, none⟩ ++ rest
          = pre ++ encodeU16 t ++ (encodeU16 l ++ rest) := by
        simp [encodeSpec]
      rw [heq]
      exact readU16?_encodeU16 _ _ _ h1
    have hr2 : readU16? (pre ++ encodeSpec ⟨t, l, none⟩ ++ rest)
        (pre.length + 2) = some l := by
      have heq : pre ++ encodeSpec ⟨t, l, none⟩ ++ rest
          = (pre ++ encodeU16 t) ++ encodeU16 l ++ rest := by
        simp [encodeSpec]
      have hlen : pre.length + 2 = (pre ++ encodeU16 t).length := by
        simp [encodeU16]
      rw [heq, hlen]
      exact readU16?_encodeU16 _ _ _ h2
    have hbit : (t &&& 32768 != 0) = false := by
      simp [h3']
    unfold decodeField
    rw [hr1, hr2]
    dsimp only
    rw [hbit]
    simp [WireSpec.toInfo, hbit, encodeSpec, encodeU16]
  | some e =>
    have h3' : e < 4294967296 ∧ t &&& 32768 ≠ 0 := h3
    have hr1 : readU16? (pre ++ encodeSpec ⟨t, l, some e⟩ ++ rest) pre.length
        = some t := by
      have heq : pre ++ encodeSpec ⟨t, l, some e⟩ ++ rest
          = pre ++ encodeU16 t ++ (encodeU16 l ++ encodeU32 e ++ rest) := by
        simp [encodeSpec]
      rw [heq]
      exact readU16?_encodeU16 _ _ _ h1
    have hr2 : readU16? (pre ++ encodeSpec ⟨t, l, some e⟩ ++ rest)
        (pre.length + 2) = some l := by
      have heq : pre ++ encodeSpec ⟨t, l, some e⟩ ++ rest
          = (pre ++ encodeU16 t) ++ encodeU16 l ++ (encodeU32 e ++ rest) := by
        simp [encodeSpec]
      have hlen : pre.length + 2 = (pre ++ encodeU16 t).length := by
        simp [encodeU16]
      rw [heq, hlen]
      exact readU16?_encodeU16 _ _ _ h2
    have hr3 : readU32? (pre ++ encodeSpec ⟨t, l, some e⟩ ++ rest)
        (pre.length + 4) = some e := by
      have heq : pre ++ encodeSpec ⟨t, l, some e⟩ ++ rest
          = (pre ++ encodeU16 t ++ encodeU16 l) ++ encodeU32 e ++ rest := by
        simp [encodeSpec]
      have hlen : pre.length + 4 = (pre ++ encodeU16 t ++ encodeU16 l).length := by
        simp [encodeU16]
      rw [heq, hlen]
      exact readU32?_encodeU32 _ _ _ h3'.1
    have hbit : (t &&& 32768 != 0) = true := by
      simp [h3'.2]
    have hlen8 : pre.length + 8 ≤ (pre ++ encodeSpec ⟨t, l, some e⟩ ++ rest).length := by
      simp [encodeSpec, encodeU16, encodeU32]
    unfold decodeField
    rw [hr1, hr2]
    dsimp only
    rw [hbit]
    rw [if_pos rfl, if_pos hlen8, hr3]
    simp [WireSpec.toInfo, hbit, encodeSpec, encodeU16, encodeU32]

theorem parseFields_encode (specs : List WireSpec) :
    ∀ (pre rest : Bytes) (ft : List (Nat × FieldTypeStats)),
      (∀ s ∈ specs, s.valid) →
      ∃ ftF flagsF,
        parseFields (pre ++ encodeSpecs specs ++ rest) specs.length pre.length
            ft =
          some (specs.map WireSpec.toInfo,
            pre.length + (encodeSpecs specs).length, ftF, flagsF) := by
  induction specs with
  | nil =>
    intro pre rest ft _
    exact ⟨ft, [], by simp [parseFields, encodeSpecs]⟩
  | cons s ss ih =>
    intro pre rest ft hv
    have hvs : s.valid := hv s (by simp)
    have hvss : ∀ x ∈ ss, x.valid := fun x hx => hv x (by simp [hx])
    have heq : pre ++ encodeSpecs (s :: ss) ++ rest
        = pre ++ encodeSpec s ++ (encodeSpecs ss ++ rest) := by
      simp [encodeSpecs]
    have hb : pre.length + 4 ≤ (pre ++ encodeSpecs (s :: ss) ++ rest).length := by
      have := length_encodeSpec_ge s
      simp only [List.length_append, encodeSpecs]
      omega
    have hdec : decodeField (pre ++ encodeSpecs (s :: ss) ++ rest) pre.length
        = some (s.toInfo, pre.length + (encodeSpec s).length) := by
      rw [heq]
      exact decodeField_encode pre (encodeSpecs ss ++ rest) s hvs
    obtain ⟨ftF, flagsF, hrec⟩ := ih (pre ++ encodeSpec s) rest
      (updateFieldTypeStats ft s.toInfo.ftype s.toInfo.flen s.toInfo.enterprise)
      hvss
    refine ⟨ftF, flagsFor s.toInfo.ftype s.toInfo.flen ++ flagsF, ?_⟩
    show parseFields (pre ++ encodeSpecs (s :: ss) ++ rest) (ss.length + 1)
        pre.length ft = _
    unfold parseFields
    rw [if_pos hb, hdec]
    dsimp only
    have hoff : pre.length + (encodeSpec s).length
        = (pre ++ encodeSpec s).length := by
      simp
    have heq2 : pre ++ encodeSpecs (s :: ss) ++ rest
        = (pre ++ encodeSpec s) ++ encodeSpecs ss ++ rest := by
      simp [encodeSpecs]
    rw [hoff, heq2, hrec]
    dsimp only
    have hlen : (pre ++ encodeSpec s).length + (encodeSpecs ss).length
        = pre.length + (encodeSpecs (s :: ss)).length := by
      simp [encodeSpecs]
      omega
    rw [hlen]
    simp

theorem analyzeLoop_stop (data : Bytes) (addr : Addr) (dom fuel offset : Nat)
    (st : InspectorState) (h : ¬ offset + 4 ≤ data.length) (hf : 0 < fuel) :
    analyzeLoop data addr dom fuel offset st = some (st, [], []) := by
  obtain ⟨f, rfl⟩ : ∃ f, fuel = f + 1 := ⟨fuel - 1, by omega⟩
  unfold analyzeLoop
  rw [if_neg h]

theorem setsLoop_stop (data : Bytes) (addr : Addr) (msglen dom fuel offset : Nat)
    (st : InspectorState) (h : ¬ (offset + 4 ≤ data.length ∧ offset < msglen))
    (hf : 0 < fuel) :
    setsLoop data addr msglen dom fuel offset st = some (st, [], []) := by
  obtain ⟨f, rfl⟩ : ∃ f, fuel = f + 1 := ⟨fuel - 1, by omega⟩
  unfold setsLoop
  rw [if_neg h]

theorem analyzeLoop_encode (addr : Addr) (dom : Nat) (ts : List WireTemplate) :
    ∀ (pre : Bytes) (st : InspectorState) (fuel : Nat),
      (∀ t ∈ ts, t.valid) → ts.length < fuel →
      ∃ stF flagsF,
        analyzeLoop (pre ++ encodeTemplates ts) addr dom fuel pre.length st =
          some (stF, ts.map WireTemplate.toRecord, flagsF) := by
  induction ts with
  | nil =>
    intro pre st fuel _ hfuel
    refine ⟨st, [], ?_⟩
    apply analyzeLoop_stop
    · simp [encodeTemplates]
    · omega
  | cons t ts' ih =>
    intro pre st fuel hv hfuel
    obtain ⟨f, rfl⟩ : ∃ f, fuel = f + 1 := ⟨fuel - 1, by omega⟩
    obtain ⟨ht1, ht2, ht3⟩ : t.valid := hv t (by simp)
    have hvts : ∀ x ∈ ts', x.valid := fun x hx => hv x (by simp [hx])
    have hb : pre.length + 4 ≤ (pre ++ encodeTemplates (t :: ts')).length := by
      have := length_encodeTemplate t
      simp only [List.length_append, encodeTemplates]
      omega
    have hrtid : readU16? (pre ++ encodeTemplates (t :: ts')) pre.length
        = some t.tid := by
      have heq : pre ++ encodeTemplates (t :: ts')
          = pre ++ encodeU16 t.tid ++ (encodeU16 t.specs.length ++
            encodeSpecs t.specs ++ encodeTemplates ts') := by
        simp [encodeTemplates, encodeTemplate]
      rw [heq]
      exact readU16?_encodeU16 _ _ _ ht1
    have hrcnt : readU16? (pre ++ encodeTemplates (t :: ts')) (pre.length + 2)
        = some t.specs.length := by
      have heq : pre ++ encodeTemplates (t :: ts')
          = (pre ++ encodeU16 t.tid) ++ encodeU16 t.specs.length ++
            (encodeSpecs t.specs ++ encodeTemplates ts') := by
        simp [encodeTemplates, encodeTemplate]
      have hlen : pre.length + 2 = (pre ++ encodeU16 t.tid).length := by
        simp [encodeU16]
      rw [heq, hlen]
      exact readU16?_encodeU16 _ _ _ ht2
    obtain ⟨ftF, flagsF, hparse0⟩ := parseFields_encode t.specs
      (pre ++ encodeU16 t.tid ++ encodeU16 t.specs.length)
      (encodeTemplates ts') st.field_type_stats ht3
    have hparse : parseFields (pre ++ encodeTemplates (t :: ts'))
        t.specs.length (pre.length + 4) st.field_type_stats =
        some (t.specs.map WireSpec.toInfo,
          (pre ++ encodeU16 t.tid ++ encodeU16 t.specs.length).length +
            (encodeSpecs t.specs).length, ftF, flagsF) := by
      have heq : pre ++ encodeTemplates (t :: ts')
          = (pre ++ encodeU16 t.tid ++ encodeU16 t.specs.length) ++
            encodeSpecs t.specs ++ encodeTemplates ts' := by
        simp [encodeTemplates, encodeTemplate]
      have hlen : pre.length + 4
          = (pre ++ encodeU16 t.tid ++ encodeU16 t.specs.length).length := by
        simp [encodeU16]
      rw [heq, hlen]
      exact hparse0
    obtain ⟨tstats2, hset⟩ := Option.isSome_iff_exists.mp
      (setTemplateFields_bump_isSome st.template_stats
        (addr, dom, t.tid) t.specs.length (t.specs.map WireSpec.toInfo))
    obtain ⟨stF, flagsR, hrec0⟩ := ih (pre ++ encodeTemplate t)
      ⟨tstats2, ftF⟩ f hvts (by simpa using hfuel)
    have hBeq : (pre ++ encodeTemplate t) ++ encodeTemplates ts'
        = pre ++ encodeTemplates (t :: ts') := by
      simp [encodeTemplates]
    rw [hBeq] at hrec0
    have hofeq : (pre ++ encodeU16 t.tid ++ encodeU16 t.specs.length).length +
        (encodeSpecs t.specs).length = (pre ++ encodeTemplate t).length := by
      simp [encodeTemplate, encodeU16]
      omega
    refine ⟨stF, flagsF ++ flagsR, ?_⟩
    unfold analyzeLoop
    rw [if_pos hb, hrtid, hrcnt]
    dsimp only
    rw [hparse]
    dsimp only
    rw [hset]
    dsimp only
    rw [hofeq, hrec0]
    dsimp only
    simp [WireTemplate.toRecord]

theorem process_packet_mkIPFIX (st : InspectorState) (addr : Addr) (dom : Nat)
    (ts : List WireTemplate) (hdom : dom < 4294967296)
    (hlen : 20 + (encodeTemplates ts).length < 65536)
    (hts : ∀ t ∈ ts, t.valid) :
    ∃ stF flags, process_packet st addr (mkIPFIXPacket dom ts) =
      some (stF, ts.map WireTemplate.toRecord, flags) := by
  have hplen : (mkIPFIXPacket dom ts).length
      = 20 + (encodeTemplates ts).length := by
    simp only [mkIPFIXPacket, List.length_append, length_encodeU16,
      length_encodeU32]
  have hr0 : readU16? (mkIPFIXPacket dom ts) 0 = some 10 := by
    have h := readU16?_encodeU16 []
      (encodeU16 (20 + (encodeTemplates ts).length) ++ encodeU32 0 ++
        encodeU32 0 ++ encodeU32 dom ++ encodeU16 2 ++
        encodeU16 (4 + (encodeTemplates ts).length) ++ encodeTemplates ts)
      10 (by omega)
    simpa [mkIPFIXPacket] using h
  have hr2 : readU16? (mkIPFIXPacket dom ts) 2
      = some (20 + (encodeTemplates ts).length) := by
    have h := readU16?_encodeU16 (encodeU16 10)
      (encodeU32 0 ++ encodeU32 0 ++ encodeU32 dom ++ encodeU16 2 ++
        encodeU16 (4 + (encodeTemplates ts).length) ++ encodeTemplates ts)
      (20 + (encodeTemplates ts).length) hlen
    simpa [mkIPFIXPacket, encodeU16] using h
  have hr4 : readU32? (mkIPFIXPacket dom ts) 4 = some 0 := by
    have h := readU32?_encodeU32
      (encodeU16 10 ++ encodeU16 (20 + (encodeTemplates ts).length))
      (encodeU32 0 ++ encodeU32 dom ++ encodeU16 2 ++
        encodeU16 (4 + (encodeTemplates ts).length) ++ encodeTemplates ts)
      0 (by omega)
    simpa [mkIPFIXPacket, encodeU16, List.append_assoc] using h
  have hr8 : readU32? (mkIPFIXPacket dom ts) 8 = some 0 := by
    have h := readU32?_encodeU32
      (encodeU16 10 ++ encodeU16 (20 + (encodeTemplates ts).length) ++
        encodeU32 0)
      (encodeU32 dom ++ encodeU16 2 ++
        encodeU16 (4 + (encodeTemplates ts).length) ++ encodeTemplates ts)
      0 (by omega)
    simpa [mkIPFIXPacket, encodeU16, encodeU32, List.append_assoc] using h
  have hr12 : readU32? (mkIPFIXPacket dom ts) 12 = some dom := by
    have h := readU32?_encodeU32
      (encodeU16 10 ++ encodeU16 (20 + (encodeTemplates ts).length) ++
        encodeU32 0 ++ encodeU32 0)
      (encodeU16 2 ++ encodeU16 (4 + (encodeTemplates ts).length) ++
        encodeTemplates ts)
      dom hdom
    simpa [mkIPFIXPacket, encodeU16, encodeU32, List.append_assoc] using h
  have hr16 : readU16? (mkIPFIXPacket dom ts) 16 = some 2 := by
    have h := readU16?_encodeU16
      (encodeU16 10 ++ encodeU16 (20 + (encodeTemplates ts).length) ++
        encodeU32 0 ++ encodeU32 0 ++ encodeU32 dom)
      (encodeU16 (4 + (encodeTemplates ts).length) ++ encodeTemplates ts)
      2 (by omega)
    simpa [mkIPFIXPacket, encodeU16, encodeU32, List.append_assoc] using h
  have hr18 : readU16? (mkIPFIXPacket dom ts) 18
      = some (4 + (encodeTemplates ts).length) := by
    have h := readU16?_encodeU16
      (encodeU16 10 ++ encodeU16 (20 + (encodeTemplates ts).length) ++
        encodeU32 0 ++ encodeU32 0 ++ encodeU32 dom ++ encodeU16 2)
      (encodeTemplates ts)
      (4 + (encodeTemplates ts).length) (by omega)
    simpa [mkIPFIXPacket, encodeU16, encodeU32, List.append_assoc] using h
  have hsd : ((mkIPFIXPacket dom ts).drop (16 + 4)).take
      (4 + (encodeTemplates ts).length - 4) = encodeTemplates ts := by
    have heq : mkIPFIXPacket dom ts
        = (encodeU16 10 ++ encodeU16 (20 + (encodeTemplates ts).length) ++
            encodeU32 0 ++ encodeU32 0 ++ encodeU32 dom ++ encodeU16 2 ++
            encodeU16 (4 + (encodeTemplates ts).length)) ++
          encodeTemplates ts := by
      simp [mkIPFIXPacket, List.append_assoc]
    have h20 : (16 : Nat) + 4
        = (encodeU16 10 ++ encodeU16 (20 + (encodeTemplates ts).length) ++
            encodeU32 0 ++ encodeU32 0 ++ encodeU32 dom ++ encodeU16 2 ++
            encodeU16 (4 + (encodeTemplates ts).length)).length := by
      simp only [List.length_append, length_encodeU16, length_encodeU32]
    have hp4 : 4 + (encodeTemplates ts).length - 4
        = (encodeTemplates ts).length := by omega
    rw [heq, h20, List.drop_left, hp4, List.take_length]
  obtain ⟨st1, flags1, hana⟩ := analyzeLoop_encode addr dom ts [] st
    ((encodeTemplates ts).length + 1) hts
    (by have := length_encodeTemplates_ge ts; omega)
  have hana' : analyze_template_set (encodeTemplates ts) addr dom st
      = some (st1, ts.map WireTemplate.toRecord, flags1) := by
    simpa [analyze_template_set] using hana
  refine ⟨st1, flags1 ++ [], ?_⟩
  unfold process_packet
  rw [if_neg (by simp only [hplen]; omega)]
  rw [hr0]
  dsimp only
  rw [if_pos rfl]
  unfold process_ipfix_packet
  rw [if_neg (by simp only [hplen]; omega)]
  rw [hr0, hr2, hr4, hr8, hr12]
  dsimp only
  unfold setsLoop
  rw [if_pos ⟨by simp only [hplen]; omega, by omega⟩]
  rw [hr16, hr18]
  dsimp only
  rw [if_neg (show ¬ (4 + (encodeTemplates ts).length < 4) by omega)]
  rw [if_pos rfl, hsd, hana']
  dsimp only
  rw [setsLoop_stop _ _ _ _ _ _ _
    (by simp only [hplen]; omega) (by simp only [hplen]; omega)]
  dsimp only
  simp

/-! ### The field-type statistics invariant -/

/-- Every `field_type_stats` entry has been observed at least once, stores one
length per observation, and carries at most one enterprise observation per
observation. -/
def FTInv (tbl : List (Nat × FieldTypeStats)) : Prop :=
  ∀ e ∈ tbl, 1 ≤ e.2.count ∧ e.2.lengths.length = e.2.count ∧
    e.2.enterprise_count ≤ e.2.count

instance (tbl : List (Nat × FieldTypeStats)) : Decidable (FTInv tbl) := by
  unfold FTInv; infer_instance

theorem FTInv_update (tbl : List (Nat × FieldTypeStats)) (t l : Nat)
    (e : Option Nat) (h : FTInv tbl) :
    FTInv (updateFieldTypeStats tbl t l e) := by
  induction tbl with
  | nil =>
    intro x hx
    simp [updateFieldTypeStats] at hx
    subst hx
    by_cases hp : pyTruthy e = true <;> simp [hp]
  | cons p rest ih =>
    obtain ⟨t', s⟩ := p
    have hhead := h (t', s) (by simp)
    have htail : FTInv rest := fun x hx => h x (by simp [hx])
    by_cases ht : t' = t
    · intro x hx
      simp only [updateFieldTypeStats, if_pos ht, List.mem_cons] at hx
      rcases hx with hx | hx
      · subst hx
        simp only at hhead ⊢
        refine ⟨by omega, ?_, ?_⟩
        · simp [hhead.2.1]
        · by_cases hp : pyTruthy e = true <;> simp [hp] <;> omega
      · exact htail x hx
    · intro x hx
      simp only [updateFieldTypeStats, if_neg ht, List.mem_cons] at hx
      rcases hx with hx | hx
      · subst hx
        exact hhead
      · exact ih htail x hx

theorem FTInv_parseFields (data : Bytes) :
    ∀ (n off : Nat) (ft : List (Nat × FieldTypeStats)) fs offF ftF flagsF,
      FTInv ft → parseFields data n off ft = some (fs, offF, ftF, flagsF) →
      FTInv ftF := by
  intro n
  induction n with
  | zero =>
    intro off ft fs offF ftF flagsF h heq
    simp [parseFields] at heq
    exact heq.2.2.1 ▸ h
  | succ m ih =>
    intro off ft fs offF ftF flagsF h heq
    unfold parseFields at heq
    by_cases hb : off + 4 ≤ data.length
    · rw [if_pos hb] at heq
      cases hd : decodeField data off with
      | none => rw [hd] at heq; exact absurd heq (by simp)
      | some p =>
        obtain ⟨fi, off'⟩ := p
        rw [hd] at heq
        dsimp only at heq
        cases hr : parseFields data m off'
            (updateFieldTypeStats ft fi.ftype fi.flen fi.enterprise) with
        | none => rw [hr] at heq; exact absurd heq (by simp)
        | some q =>
          obtain ⟨rest, offF', ftF', flagsF'⟩ := q
          rw [hr] at heq
          dsimp only at heq
          have hup : FTInv (updateFieldTypeStats ft fi.ftype fi.flen
              fi.enterprise) := FTInv_update ft _ _ _ h
          have := ih off' _ rest offF' ftF' flagsF' hup hr
          simp only [Option.some.injEq, Prod.mk.injEq] at heq
          exact heq.2.2.1 ▸ this
    · rw [if_neg hb] at heq
      simp only [Option.some.injEq, Prod.mk.injEq] at heq
      exact heq.2.2.1 ▸ h

theorem FTInv_analyzeLoop (data : Bytes) (addr : Addr) (dom : Nat) :
    ∀ (fuel offset : Nat) (st : InspectorState) stF recs flags,
      FTInv st.field_type_stats →
      analyzeLoop data addr dom fuel offset st = some (stF, recs, flags) →
      FTInv stF.field_type_stats := by
  intro fuel
  induction fuel with
  | zero =>
    intro offset st stF recs flags _ heq
    simp [analyzeLoop] at heq
  | succ f ih =>
    intro offset st stF recs flags h heq
    unfold analyzeLoop at heq
    by_cases hb : offset + 4 ≤ data.length
    · rw [if_pos hb] at heq
      obtain ⟨tid, htid⟩ := readU16?_eq_some (d := data) (i := offset) (by omega)
      obtain ⟨fc, hfc⟩ :=
        readU16?_eq_some (d := data) (i := offset + 2) (by omega)
      rw [htid, hfc] at heq
      dsimp only at heq
      cases hp : parseFields data fc (offset + 4) st.field_type_stats with
      | none => rw [hp] at heq; exact absurd heq (by simp)
      | some q =>
        obtain ⟨fields, fieldOffset, ft1, flags1⟩ := q
        rw [hp] at heq
        dsimp only at heq
        cases hset : setTemplateFields
            (bumpTemplate st.template_stats (addr, dom, tid) fc)
            (addr, dom, tid) fields with
        | none => rw [hset] at heq; exact absurd heq (by simp)
        | some tstats2 =>
          rw [hset] at heq
          dsimp only at heq
          cases hrec : analyzeLoop data addr dom f fieldOffset
              ⟨tstats2, ft1⟩ with
          | none => rw [hrec] at heq; exact absurd heq (by simp)
          | some out =>
            obtain ⟨stF', recs', flagsF'⟩ := out
            rw [hrec] at heq
            dsimp only at heq
            have hft1 : FTInv ft1 :=
              FTInv_parseFields data fc (offset + 4) st.field_type_stats
                fields fieldOffset ft1 flags1 h hp
            have hpres := ih fieldOffset ⟨tstats2, ft1⟩ stF' recs' flagsF'
              hft1 hrec
            simp only [Option.some.injEq, Prod.mk.injEq] at heq
            exact heq.1 ▸ hpres
    · rw [if_neg hb] at heq
      simp only [Option.some.injEq, Prod.mk.injEq] at heq
      exact heq.1 ▸ h

theorem FTInv_analyze_template_set (data : Bytes) (addr : Addr) (dom : Nat)
    (st : InspectorState) (stF : InspectorState) recs flags
    (h : FTInv st.field_type_stats)
    (heq : analyze_template_set data addr dom st = some (stF, recs, flags)) :
    FTInv stF.field_type_stats :=
  FTInv_analyzeLoop data addr dom (data.length + 1) 0 st stF recs flags h heq

theorem FTInv_setsLoop (data : Bytes) (addr : Addr) (msglen dom : Nat) :
    ∀ (fuel offset : Nat) (st : InspectorState) stF recs flags,
      FTInv st.field_type_stats →
      setsLoop data addr msglen dom fuel offset st = some (stF, recs, flags) →
      FTInv stF.field_type_stats := by
  intro fuel
  induction fuel with
  | zero =>
    intro offset st stF recs flags _ heq
    simp [setsLoop] at heq
  | succ f ih =>
    intro offset st stF recs flags h heq
    unfold setsLoop at heq
    by_cases hb : offset + 4 ≤ data.length ∧ offset < msglen
    · rw [if_pos hb] at heq
      obtain ⟨setId, hid⟩ :=
        readU16?_eq_some (d := data) (i := offset) (by omega)
      obtain ⟨setLen, hslen⟩ :=
        readU16?_eq_some (d := data) (i := offset + 2) (by omega)
      rw [hid, hslen] at heq
      dsimp only at heq
      by_cases hsl : setLen < 4
      · rw [if_pos hsl] at heq
        simp only [Option.some.injEq, Prod.mk.injEq] at heq
        exact heq.1 ▸ h
      · rw [if_neg hsl] at heq
        cases h1 : (if setId = 2 then
            analyze_template_set ((data.drop (offset + 4)).take (setLen - 4))
              addr dom st
          else some (st, [], [])) with
        | none => rw [h1] at heq; exact absurd heq (by simp)
        | some q =>
          obtain ⟨st1, r1, f1⟩ := q
          rw [h1] at heq
          dsimp only at heq
          have hst1 : FTInv st1.field_type_stats := by
            by_cases h2 : setId = 2
            · rw [if_pos h2] at h1
              exact FTInv_analyze_template_set _ addr dom st st1 r1 f1 h h1
            · rw [if_neg h2] at h1
              simp only [Option.some.injEq, Prod.mk.injEq] at h1
              exact h1.1 ▸ h
          cases hrec : setsLoop data addr msglen dom f (offset + setLen)
              st1 with
          | none => rw [hrec] at heq; exact absurd heq (by simp)
          | some out =>
            obtain ⟨st2, r2, f2⟩ := out
            rw [hrec] at heq
            dsimp only at heq
            have := ih (offset + setLen) st1 st2 r2 f2 hst1 hrec
            simp only [Option.some.injEq, Prod.mk.injEq] at heq
            exact heq.1 ▸ this
    · rw [if_neg hb] at heq
      simp only [Option.some.injEq, Prod.mk.injEq] at heq
      exact heq.1 ▸ h

theorem FTInv_process_packet (st : InspectorState) (addr : Addr) (data : Bytes)
    (stF : InspectorState) recs flags (h : FTInv st.field_type_stats)
    (heq : process_packet st addr data = some (stF, recs, flags)) :
    FTInv stF.field_type_stats := by
  unfold process_packet at heq
  by_cases hb : data.length < 4
  · rw [if_pos hb] at heq
    simp only [Option.some.injEq, Prod.mk.injEq] at heq
    exact heq.1 ▸ h
  · rw [if_neg hb] at heq
    obtain ⟨v0, h0⟩ := readU16?_eq_some (d := data) (i := 0) (by omega)
    rw [h0] at heq
    dsimp only at heq
    by_cases hv : v0 = 10
    · rw [if_pos hv] at heq
      unfold process_ipfix_packet at heq
      by_cases h16 : data.length < 16
      · rw [if_pos h16] at heq
        simp only [Option.some.injEq, Prod.mk.injEq] at heq
        exact heq.1 ▸ h
      · rw [if_neg h16] at heq
        obtain ⟨w0, g0⟩ := readU16?_eq_some (d := data) (i := 0) (by omega)
        obtain ⟨w2, g2⟩ := readU16?_eq_some (d := data) (i := 2) (by omega)
        obtain ⟨w4, g4⟩ := readU32?_eq_some (d := data) (i := 4) (by omega)
        obtain ⟨w8, g8⟩ := readU32?_eq_some (d := data) (i := 8) (by omega)
        obtain ⟨w12, g12⟩ := readU32?_eq_some (d := data) (i := 12) (by omega)
        rw [g0, g2, g4, g8, g12] at heq
        dsimp only at heq
        exact FTInv_setsLoop data addr w2 w12 (data.length + 1) 16 st
          stF recs flags h heq
    · rw [if_neg hv] at heq
      simp only [Option.some.injEq, Prod.mk.injEq] at heq
      exact heq.1 ▸ h

/-! ### Claim theorems -/

/-- C1: For every well-formed IPFIX datagram (version 10, header of at least
16 bytes, declared message and Set lengths consistent with the buffer) whose
Template Set contains N template records each declaring F fields with all
declared bytes present, processing the packet decodes exactly N template
records, each whose stored field list has exactly F field specifiers in the
order they appear on the wire. -/
theorem C1_wellformed_packet_decodes_all_templates (st : InspectorState)
    (addr : Addr) (dom F : Nat) (ts : List WireTemplate)
    (hdom : dom < 4294967296)
    (hlen : 20 + (encodeTemplates ts).length < 65536)
    (hts : ∀ t ∈ ts, t.valid) (hF : ∀ t ∈ ts, t.specs.length = F) :
    decodedRecords st addr (mkIPFIXPacket dom ts)
        = ts.map WireTemplate.toRecord
    ∧ (decodedRecords st addr (mkIPFIXPacket dom ts)).length = ts.length
    ∧ ∀ r ∈ decodedRecords st addr (mkIPFIXPacket dom ts),
        r.fields.length = F ∧ r.declared = F := by
  obtain ⟨stF, flags, hp⟩ := process_packet_mkIPFIX st addr dom ts hdom hlen hts
  have hd : decodedRecords st addr (mkIPFIXPacket dom ts)
      = ts.map WireTemplate.toRecord := by
    simp [decodedRecords, hp]
  refine ⟨hd, by simp [hd], ?_⟩
  intro r hr
  rw [hd] at hr
  simp only [List.mem_map] at hr
  obtain ⟨t, ht, rfl⟩ := hr
  have hFt := hF t ht
  simp [WireTemplate.toRecord, hFt]

/-- Witness for C1: a concrete 2-template, 1-field-each packet decodes to the
two expected template records. -/
theorem C1_wellformed_packet_decodes_all_templates_witness :
    decodedRecords initialState ("10.0.0.1", 9995)
        (mkIPFIXPacket 7 [⟨256, [⟨5, 4, none⟩]⟩, ⟨257, [⟨6, 2, none⟩]⟩])
      = [⟨256, 1, [⟨5, 4, none, false⟩]⟩, ⟨257, 1, [⟨6, 2, none, false⟩]⟩] :=
  (C1_wellformed_packet_decodes_all_templates initialState ("10.0.0.1", 9995)
    7 1 [⟨256, [⟨5, 4, none⟩]⟩, ⟨257, [⟨6, 2, none⟩]⟩]
    (by decide) (by decide) (by decide) (by decide)).1.trans (by decide)

/-- C2: Field specifier decoding contract: with at least 4 bytes remaining, a
specifier with bit 15 clear decodes with no enterprise data and advances by 4;
with bit 15 set and 8 bytes available the big-endian enterprise number is
decoded and the cursor advances by 8; with bit 15 set but fewer than 8 bytes
remaining the specifier is kept (enterprise bit true, number absent), the
cursor advances by 4, and no further specifier of the record is decoded. -/
theorem C2_field_specifier_decode_contract (data : Bytes)
    (off t l e m : Nat) (ft : List (Nat × FieldTypeStats))
    (hb : off + 4 ≤ data.length)
    (ht : readU16? data off = some t)
    (hl : readU16? data (off + 2) = some l) :
    (t &&& 32768 = 0 →
      decodeField data off = some (⟨t, l, none, false⟩, off + 4))
    ∧ (t &&& 32768 ≠ 0 → off + 8 ≤ data.length →
        readU32? data (off + 4) = some e →
        decodeField data off = some (⟨t, l, some e, true⟩, off + 8))
    ∧ (t &&& 32768 ≠ 0 → data.length < off + 8 →
        decodeField data off = some (⟨t, l, none, true⟩, off + 4)
        ∧ parseFields data m (off + 4) ft = some ([], off + 4, ft, [])) := by
  refine ⟨?_, ?_, ?_⟩
  · intro h0
    have hbit : (t &&& 32768 != 0) = false := by simp [h0]
    unfold decodeField
    rw [ht, hl]
    dsimp only
    rw [hbit]
    simp [hbit]
  · intro h0 h8 he
    have hbit : (t &&& 32768 != 0) = true := by simp [h0]
    unfold decodeField
    rw [ht, hl]
    dsimp only
    rw [hbit]
    simp only [if_true]
    rw [if_pos h8, he]
  · intro h0 h8
    have hbit : (t &&& 32768 != 0) = true := by simp [h0]
    constructor
    · unfold decodeField
      rw [ht, hl]
      dsimp only
      rw [hbit]
      simp only [if_true]
      rw [if_neg (by omega)]
    · cases m with
      | zero => rfl
      | succ k =>
        unfold parseFields
        rw [if_neg (by omega)]

/-- Witness for C2 at a truncated enterprise specifier (type `0x8000`, only 6
bytes of Set payload). -/
theorem C2_field_specifier_decode_contract_witness :
    decodeField [128, 0, 0, 4, 0, 0] 0 = some (⟨32768, 4, none, true⟩, 0 + 4)
    ∧ parseFields [128, 0, 0, 4, 0, 0] 3 (0 + 4) []
        = some ([], 0 + 4, [], []) :=
  (C2_field_specifier_decode_contract [128, 0, 0, 4, 0, 0] 0 32768 4 0 3 []
    (by decide) (by decide) (by decide)).2.2 (by decide) (by decide)

/-- Counterexample for C3: after announcing template 256 with one field and
re-announcing it with two fields, the stored entry has occurrence count 2 and
the second announcement's two-element field list, but its stored declared
field count is still 1 (the first announcement's), not 2 as the claim
states. -/
theorem C3_field_count_not_overwritten_counterexample :
    lookupT (((processAll
        [(("10.0.0.1", 9995), mkIPFIXPacket 7 [⟨256, [⟨1, 4, none⟩]⟩]),
         (("10.0.0.1", 9995), mkIPFIXPacket 7 [⟨256, [⟨2, 4, none⟩,
            ⟨3, 4, none⟩]⟩])]).getD initialState).template_stats)
      (("10.0.0.1", 9995), 7, 256)
      = some ⟨2, 1, [⟨2, 4, none, false⟩, ⟨3, 4, none, false⟩]⟩
    ∧ (lookupT (((processAll
        [(("10.0.0.1", 9995), mkIPFIXPacket 7 [⟨256, [⟨1, 4, none⟩]⟩]),
         (("10.0.0.1", 9995), mkIPFIXPacket 7 [⟨256, [⟨2, 4, none⟩,
            ⟨3, 4, none⟩]⟩])]).getD initialState).template_stats)
      (("10.0.0.1", 9995), 7, 256)).map TemplateStats.field_count ≠ some 2 :=
  ⟨by decide, by decide⟩

/-- C3 amended: when a template key already present with stats `s` is
re-announced (declared count `fc`, decoded fields `fs`), its occurrence count
becomes `s.count + 1` (2 on the second observation) and its stored field list
is overwritten with `fs`, but its stored declared field count keeps the value
from the first announcement (`s.field_count`), not the new `fc`. -/
theorem C3_reannouncement_amended (tbl : List (TKey × TemplateStats))
    (k : TKey) (fc : Nat) (fs : List FieldInfo) (s : TemplateStats)
    (tbl' : List (TKey × TemplateStats))
    (h : lookupT tbl k = some s)
    (heq : setTemplateFields (bumpTemplate tbl k fc) k fs = some tbl') :
    lookupT tbl' k = some ⟨s.count + 1, s.field_count, fs⟩ := by
  have h1 := lookupT_bump_present tbl k fc s h
  obtain ⟨tbl'', h2, h3⟩ :=
    setTemplateFields_lookup (bumpTemplate tbl k fc) k fs _ h1
  rw [heq] at h2
  have hteq : tbl' = tbl'' := by injection h2
  subst hteq
  simpa using h3

/-- Witness for C3 amended at a concrete one-entry table. -/
theorem C3_reannouncement_amended_witness :
    lookupT [((("10.0.0.1", 9995), 7, 256),
        ⟨2, 1, [⟨2, 4, none, false⟩]⟩)] (("10.0.0.1", 9995), 7, 256)
      = some ⟨1 + 1, 1, [⟨2, 4, none, false⟩]⟩ :=
  C3_reannouncement_amended
    [((("10.0.0.1", 9995), 7, 256), ⟨1, 1, [⟨9, 4, none, false⟩]⟩)]
    (("10.0.0.1", 9995), 7, 256) 1 [⟨2, 4, none, false⟩] ⟨1, 1, [⟨9, 4, none, false⟩]⟩
    [((("10.0.0.1", 9995), 7, 256), ⟨2, 1, [⟨2, 4, none, false⟩]⟩)]
    (by decide) (by decide)

/-- Counterexample for C4: two packets with equal occurrence counts whose keys
differ only in observation domain, inserted in the order domain 8 then domain
7, are reported in insertion order (8 before 7), violating the claimed natural
key ordering of ties. -/
theorem C4_tie_order_counterexample :
    (processAll
        [(("10.0.0.1", 9995), mkIPFIXPacket 8 [⟨256, [⟨1, 4, none⟩]⟩]),
         (("10.0.0.1", 9995), mkIPFIXPacket 7 [⟨256, [⟨1, 4, none⟩]⟩])]).isSome
      = true
    ∧ ¬ naturallyTieOrdered (topTemplates ((processAll
        [(("10.0.0.1", 9995), mkIPFIXPacket 8 [⟨256, [⟨1, 4, none⟩]⟩]),
         (("10.0.0.1", 9995), mkIPFIXPacket 7 [⟨256, [⟨1, 4, none⟩]⟩])]).getD
      initialState)) :=
  ⟨by decide, by decide⟩

/-- C4 amended: the report lists the first 10 entries of the template table
stably sorted by occurrence count in descending order: the listed entries are
a permutation of the table sorted so counts never increase, and entries with
equal counts keep their table (first-insertion) order — not the key's natural
order, and hence not independent of insertion order. -/
theorem C4_report_order_amended (st : InspectorState) :
    (sortedTemplates st).Perm st.template_stats
    ∧ List.Sorted (byCountDesc tplCount) (sortedTemplates st)
    ∧ (∀ c, (sortedTemplates st).filter (fun e => tplCount e == c)
        = st.template_stats.filter (fun e => tplCount e == c))
    ∧ topTemplates st = (sortedTemplates st).take 10 := by
  refine ⟨List.perm_insertionSort _ _, List.sorted_insertionSort _ _, ?_, rfl⟩
  intro c
  exact filter_insertionSort tplCount c st.template_stats

/-- Counterexample for C5: a field specifier with the enterprise bit set and
enterprise number 0 decodes with `enterprise = some 0` (an enterprise number
is present), yet the `field_type_stats` enterprise count is not incremented
(it stays 0, not 1), contradicting "for every present enterprise number value,
including the value 0". -/
theorem C5_enterprise_zero_counterexample :
    parseFields [128, 0, 0, 4, 0, 0, 0, 0] 1 0 []
      = some ([⟨32768, 4, some 0, true⟩], 8, [(32768, ⟨1, [4], 0⟩)], [])
    ∧ (lookupFT (updateFieldTypeStats [] 32768 4 (some 0)) 32768).map
        FieldTypeStats.enterprise_count ≠ some 1 :=
  ⟨by decide, by decide⟩

/-- C5 amended: for every decoded field specifier the entry for its raw type
code gets its count incremented, the length appended, and its enterprise count
incremented exactly when the specifier's enterprise number is truthy in
Python's sense — present AND nonzero (`pyTruthy`); all other type codes are
untouched. -/
theorem C5_field_type_update_amended (tbl : List (Nat × FieldTypeStats))
    (t l : Nat) (e : Option Nat) (t' : Nat) (hne : t' ≠ t) :
    lookupFT (updateFieldTypeStats tbl t l e) t
      = some ⟨(getFT tbl t).count + 1, (getFT tbl t).lengths ++ [l],
          (getFT tbl t).enterprise_count + if pyTruthy e then 1 else 0⟩
    ∧ lookupFT (updateFieldTypeStats tbl t l e) t' = lookupFT tbl t' :=
  ⟨lookupFT_update_self tbl t l e, lookupFT_update_other tbl t l e t' hne⟩

/-- Witness for C5 amended: updating type 32768 (length 4, enterprise number
0) in the empty table creates the entry with enterprise count 0 and leaves
type 5 absent. -/
theorem C5_field_type_update_amended_witness :
    lookupFT (updateFieldTypeStats [] 32768 4 (some 0)) 32768
      = some ⟨(getFT [] 32768).count + 1, (getFT [] 32768).lengths ++ [4],
          (getFT [] 32768).enterprise_count + if pyTruthy (some 0) then 1 else 0⟩
    ∧ lookupFT (updateFieldTypeStats [] 32768 4 (some 0)) 5 = lookupFT [] 5 :=
  C5_field_type_update_amended [] 32768 4 (some 0) 5 (by decide)

/-- C6: when Set iteration reaches a Set header whose declared length is below
4, iteration for the whole message stops without an error (`some`, never
`none`), returning exactly the statistics accumulated from the Sets parsed
earlier in the message (the state `st` is unchanged from that point on). -/
theorem C6_short_set_terminates_iteration (data : Bytes) (addr : Addr)
    (msglen dom fuel offset : Nat) (st : InspectorState) (setId setLen : Nat)
    (hf : 0 < fuel) (hb : offset + 4 ≤ data.length) (hm : offset < msglen)
    (hid : readU16? data offset = some setId)
    (hlen : readU16? data (offset + 2) = some setLen) (hs : setLen < 4) :
    setsLoop data addr msglen dom fuel offset st = some (st, [], []) := by
  obtain ⟨f, rfl⟩ : ∃ f, fuel = f + 1 := ⟨fuel - 1, by omega⟩
  unfold setsLoop
  rw [if_pos ⟨hb, hm⟩, hid, hlen]
  dsimp only
  rw [if_pos hs]

/-- Witness for C6: a Set header declaring length 2 stops iteration, keeping
the statistics accumulated so far. -/
theorem C6_short_set_terminates_iteration_witness :
    setsLoop [0, 3, 0, 2, 9, 9] ("10.0.0.1", 9995) 30 7 5 0
        ⟨[], [(5, ⟨1, [4], 0⟩)]⟩
      = some (⟨[], [(5, ⟨1, [4], 0⟩)]⟩, [], []) :=
  C6_short_set_terminates_iteration [0, 3, 0, 2, 9, 9] ("10.0.0.1", 9995)
    30 7 5 0 ⟨[], [(5, ⟨1, [4], 0⟩)]⟩ 3 2
    (by decide) (by decide) (by decide) (by decide) (by decide) (by decide)

/-- C7: a field type is reported in the "problematic field types" list iff
its recorded lengths contain 65535 or their maximum exceeds 1000, reported
with that maximum and the number of 65535 occurrences; during decoding, a
length of exactly 65535 is flagged as the variable-length marker, a length of
1001 as unusually large, and a length of 50 raises no flag. -/
theorem C7_problematic_and_flagged_lengths (st : InspectorState)
    (t m c : Nat) :
    ((t, m, c) ∈ problematicFieldTypes st ↔
      ∃ s, (t, s) ∈ st.field_type_stats ∧
        (65535 ∈ s.lengths ∨ 1000 < maxList s.lengths) ∧
        m = maxList s.lengths ∧ c = s.lengths.count 65535)
    ∧ flagsFor t 65535 = [Flag.varLength t]
    ∧ flagsFor t 1001 = [Flag.largeLength t 1001]
    ∧ flagsFor t 50 = [] := by
  refine ⟨?_, by simp [flagsFor], by norm_num [flagsFor], by norm_num [flagsFor]⟩
  unfold problematicFieldTypes
  rw [List.mem_filterMap]
  constructor
  · rintro ⟨e, he, hf⟩
    obtain ⟨t', s⟩ := e
    by_cases hcond : 65535 ∈ s.lengths ∨ 1000 < maxList s.lengths
    · rw [if_pos hcond] at hf
      simp only [Option.some.injEq, Prod.mk.injEq] at hf
      obtain ⟨rfl, rfl, rfl⟩ := hf
      refine ⟨s, ?_, hcond, rfl, rfl⟩
      have : (t', s) ∈ sortedFieldTypes st := he
      unfold sortedFieldTypes at this
      exact (List.mem_insertionSort _).mp this
    · rw [if_neg hcond] at hf
      exact absurd hf (by simp)
  · rintro ⟨s, hs, hcond, rfl, rfl⟩
    refine ⟨(t, s), ?_, ?_⟩
    · unfold sortedFieldTypes
      exact (List.mem_insertionSort _).mpr hs
    · rw [if_pos hcond]

/-- C8: datagrams shorter than 4 bytes, version-10 datagrams shorter than the
16-byte IPFIX header, and datagrams of any version other than 10 (including 5
and 9) leave both statistics tables completely unchanged. -/
theorem C8_discard_no_mutation (st : InspectorState) (addr : Addr)
    (data : Bytes) (v : Nat)
    (h : data.length < 4 ∨ (readU16? data 0 = some 10 ∧ data.length < 16)
      ∨ (readU16? data 0 = some v ∧ v ≠ 10)) :
    process_packet st addr data = some (st, [], []) := by
  unfold process_packet
  rcases h with h | ⟨h10, h16⟩ | ⟨hv, hne⟩
  · rw [if_pos h]
  · by_cases h4 : data.length < 4
    · rw [if_pos h4]
    · rw [if_neg h4, h10]
      dsimp only
      rw [if_pos rfl]
      unfold process_ipfix_packet
      rw [if_pos h16]
  · by_cases h4 : data.length < 4
    · rw [if_pos h4]
    · rw [if_neg h4, hv]
      dsimp only
      rw [if_neg hne]

/-- Witness for C8: a 10-byte version-10 datagram is discarded with the state
unchanged. -/
theorem C8_discard_no_mutation_witness :
    process_packet ⟨[], [(5, ⟨2, [4, 4], 1⟩)]⟩ ("10.0.0.1", 9995)
        [0, 10, 0, 0, 0, 0, 0, 0, 0, 0]
      = some (⟨[], [(5, ⟨2, [4, 4], 1⟩)]⟩, [], []) :=
  C8_discard_no_mutation ⟨[], [(5, ⟨2, [4, 4], 1⟩)]⟩ ("10.0.0.1", 9995)
    [0, 10, 0, 0, 0, 0, 0, 0, 0, 0] 10
    (Or.inr (Or.inl ⟨by decide, by decide⟩))

/-- C9: processing any datagram from any source in any state terminates
normally and never raises: every `struct.unpack` read is guarded by an
explicit length check, so the (exception-modelling) `Option` result is always
`some`. -/
theorem C9_processing_never_fails (st : InspectorState) (addr : Addr)
    (data : Bytes) : ∃ out, process_packet st addr data = some out :=
  Option.isSome_iff_exists.mp (process_packet_isSome st addr data)

/-- C10: the field-type statistics invariant — every entry has occurrence
count at least 1, exactly one recorded length per occurrence, and an
enterprise count bounded by the occurrence count — is preserved by packet
processing; consequently every entry used by the report has a non-empty
length sequence and nonzero divisors for its mean length and enterprise
percentage. -/
theorem C10_field_type_stats_invariant (st : InspectorState) (addr : Addr)
    (data : Bytes) (stF : InspectorState) (recs : List TemplateRecord)
    (flags : List Flag) (e : Nat × FieldTypeStats)
    (h : FTInv st.field_type_stats)
    (heq : process_packet st addr data = some (stF, recs, flags))
    (hmem : e ∈ stF.field_type_stats) :
    FTInv stF.field_type_stats ∧ FTInv initialState.field_type_stats
    ∧ 1 ≤ e.2.count ∧ e.2.lengths.length = e.2.count
    ∧ e.2.enterprise_count ≤ e.2.count
    ∧ e.2.lengths ≠ [] ∧ 0 < e.2.lengths.length := by
  have hp := FTInv_process_packet st addr data stF recs flags h heq
  obtain ⟨h1, h2, h3⟩ := hp e hmem
  refine ⟨hp, by intro x hx; simp [initialState] at hx, h1, h2, h3, ?_, by omega⟩
  intro hnil
  rw [hnil] at h2
  simp at h2
  omega

/-- Witness for C10 at a concrete state and datagram. -/
theorem C10_field_type_stats_invariant_witness :
    FTInv (⟨[], [(5, ⟨1, [4], 0⟩)]⟩ : InspectorState).field_type_stats
    ∧ FTInv initialState.field_type_stats
    ∧ 1 ≤ (⟨1, [4], 0⟩ : FieldTypeStats).count
    ∧ ([4] : List Nat).length = 1 ∧ (0 : Nat) ≤ 1
    ∧ ([4] : List Nat) ≠ [] ∧ 0 < ([4] : List Nat).length :=
  C10_field_type_stats_invariant ⟨[], [(5, ⟨1, [4], 0⟩)]⟩ ("10.0.0.1", 9995)
    [] ⟨[], [(5, ⟨1, [4], 0⟩)]⟩ [] [] (5, ⟨1, [4], 0⟩)
    (by decide) (by decide) (by decide)

end NetflowInspect
